import Mathlib

/-!
Formal model of the hierarchical finite-state-machine engine in `fsm.hpp`
(the fourcc-integer variant, `namespace fsm`, class `fsm::stack`).

Modelling conventions, kept as close to the C++ source as a shallow
embedding allows:

* `fsm::state` carries an `int` name (a fourcc such as the multi-character
  literals written in quotes in C++) and a list of string arguments; the
  source compares states by name only (`operator==` ignores `args`).
* `std::map<bistate, fsm::call> callbacks` is modelled as an association
  list from `(Int, Int)` keys to a `Bool`: `true` means a handler has been
  assigned through `on(from, to) = lambda`, `false` means the entry was
  default-created by `std::map::operator[]` (a default-constructed,
  empty `std::function`).  The bodies of the handlers are arbitrary host
  code whose effects live outside the machine, so the model records each
  actual handler invocation in an instrumentation field `trace` instead of
  running it; re-entrant calls from inside a handler are outside the model.
* invoking an empty `std::function` throws `std::bad_function_call`; this
  is the `err.badCall` outcome (carrying the machine as mutated up to the
  throw, since `call` pushes the log record before invoking the callback).
* `deque.back()` on an empty `std::deque` is undefined behavior in C++;
  the model makes that outcome explicit as `err.emptyBack`.
* the `mutable std::deque<fsm::transition> log` capped at 50 entries is a
  `List transition`, oldest record first, appended through `appendLog`.
-/

namespace FsmModel

/-- Fourcc packing of four characters into one integer, the value of a
C++ multi-character literal such as the ones used for the built-in
lifecycle actions in `fsm.hpp`. -/
def fourcc (a b c d : Char) : Int :=
  ((a.toNat * 256 + b.toNat) * 256 + c.toNat) * 256 + d.toNat

/-- Value of the literal used by `fsm::state`'s default constructor. -/
def LNULL : Int := fourcc 'n' 'u' 'l' 'l'

/-- Value of the literal fired when a state is created. -/
def LINIT : Int := fourcc 'i' 'n' 'i' 't'

/-- Value of the literal fired when a state is destroyed. -/
def LQUIT : Int := fourcc 'q' 'u' 'i' 't'

/-- Value of the literal fired when a state is paused by a push. -/
def LPUSH : Int := fourcc 'p' 'u' 's' 'h'

/-- Value of the literal fired when a state is resumed by a pop. -/
def LBACK : Int := fourcc 'b' 'a' 'c' 'k'

/-- Model of `fsm::state`: a fourcc name plus invocation arguments.
The C++ comparison operators look at `name` only. -/
structure state where
  name : Int
  args : List String
deriving Repr, DecidableEq

/-- The state built by `fsm::state()`: name is the null literal, no args. -/
def nullState : state := ⟨LNULL, []⟩

/-- Model of `fsm::transition`, the history-log record type with fields
`previous`, `trigger`, `current`. -/
structure transition where
  previous : state
  trigger : state
  current : state
deriving Repr, DecidableEq

/-- The record built by `fsm::transition()`: three default states. -/
def nullTransition : transition := ⟨nullState, nullState, nullState⟩

/-- Instrumentation record of one actual handler invocation performed by
`fsm::stack::call`: the key that was looked up and the argument list the
stored callback received (`found->second(to.args)`). -/
structure event where
  src : Int
  act : Int
  args : List String
deriving Repr, DecidableEq

/-- Model of `class fsm::stack`.  `deque` holds the active states, root at
index 0, innermost active state last.  `trace` is the instrumentation
field described in the header comment; it is not part of the C++ object.
-/
structure stack where
  callbacks : List ((Int × Int) × Bool)
  log : List transition
  deque : List state
  current_trigger : state
  trace : List event
deriving Repr, DecidableEq

/-- Exceptional outcomes of the modelled operations. -/
inductive err where
  /-- `std::bad_function_call`: an entry default-created by
  `on` was invoked before any handler was assigned to it.  Carries the
  machine as already mutated (the log record precedes the invocation). -/
  | badCall : stack → err
  /-- `deque.back()` evaluated on an empty deque (undefined behavior). -/
  | emptyBack : err
deriving Repr

/-- Lookup in the modelled callback map (`std::map::find`). -/
def lookupCb : List ((Int × Int) × Bool) → (Int × Int) → Option Bool
  | [], _ => none
  | (k, v) :: rest, key => if k = key then some v else lookupCb rest key

/-- Effect of bare `on(from, to)` with the returned reference discarded:
`std::map::operator[]` default-inserts an empty `std::function` when the
key is absent and leaves the map unchanged when it is present. -/
def touchCb (cbs : List ((Int × Int) × Bool)) (key : Int × Int) :
    List ((Int × Int) × Bool) :=
  match lookupCb cbs key with
  | some _ => cbs
  | none => cbs ++ [(key, false)]

/-- Effect of `on(from, to) = handler`: `operator[]` followed by
assignment, i.e. the key now holds an assigned handler whatever it held
before. -/
def setCb : List ((Int × Int) × Bool) → (Int × Int) → List ((Int × Int) × Bool)
  | [], key => [(key, true)]
  | (k, v) :: rest, key =>
      if k = key then (k, true) :: rest else (k, v) :: setCb rest key

/-- Every entry of the callback map has an assigned handler: the normal
situation, since host code always writes `on(a, b) = lambda` rather than
discarding the reference returned by `on`. -/
def assignedAll (cbs : List ((Int × Int) × Bool)) : Prop :=
  ∀ kv ∈ cbs, kv.2 = true

instance (cbs : List ((Int × Int) × Bool)) : Decidable (assignedAll cbs) :=
  List.decidableBAll _ cbs

/-- Bounded append used by `fsm::stack::call`: `log.push_back(record)`
followed by `if (log.size() > 50) log.pop_front()`. -/
def appendLog (l : List transition) (r : transition) : List transition :=
  let l2 := l ++ [r]
  if l2.length > 50 then l2.tail else l2

/-- Model of `fsm::stack::call(from, to)`.  When the key is absent the
call fails with no side effect.  When an entry is found, the transition
record `{from, current_trigger, to}` is appended to the bounded log and
the stored callback is invoked with `to.args` — which throws
`std::bad_function_call` when the entry was default-created and never
assigned. -/
def stack.call (m : stack) (f t : state) : Except err (Bool × stack) :=
  match lookupCb m.callbacks (f.name, t.name) with
  | none => .ok (false, m)
  | some assigned =>
      if assigned then
        .ok (true, { m with
          log := appendLog m.log ⟨f, m.current_trigger, t⟩,
          trace := m.trace ++ [⟨f.name, t.name, t.args⟩] })
      else
        .error (.badCall { m with
          log := appendLog m.log ⟨f, m.current_trigger, t⟩ })

/-- Model of the registration `on(from, to) = handler`. -/
def stack.onAssign (m : stack) (f t : state) : stack :=
  { m with callbacks := setCb m.callbacks (f.name, t.name) }

/-- Model of a bare `on(from, to)` whose returned slot is not assigned. -/
def stack.onTouch (m : stack) (f t : state) : stack :=
  { m with callbacks := touchCb m.callbacks (f.name, t.name) }

/-- Model of the constructor `stack(start)`: `deque` holds the single
start state and `call(deque.back(), LINIT)` runs on a machine whose
callback map is still empty (so it can never log nor throw here). -/
def stack.new (s : state) : Except err stack :=
  match (⟨[], [], [s], nullState, []⟩ : stack).call s ⟨LINIT, []⟩ with
  | .error e => .error e
  | .ok (_, m1) => .ok m1

/-- Model of `fsm::stack::push`.  The self-test is
`deque.size() && deque.back() == state` (name comparison only); when the
deque is empty the test short-circuits to false and the unconditional
`call(deque.back(), LPUSH)` reads the back of an empty deque. -/
def stack.push (m : stack) (s : state) : Except err stack :=
  match m.deque.getLast? with
  | some b =>
      if b.name = s.name then .ok m
      else
        match m.call b ⟨LPUSH, []⟩ with
        | .error e => .error e
        | .ok (_, m1) =>
            -- after push_back the deque's back is the pushed state
            match ({ m1 with deque := m1.deque ++ [s] } : stack).call
                s ⟨LINIT, []⟩ with
            | .error e => .error e
            | .ok (_, m3) => .ok m3
  | none => .error .emptyBack

/-- Model of `fsm::stack::pop`: on a non-empty deque fire LQUIT on the
back and remove it, then fire LBACK on the newly exposed back when one
remains.  Both size tests fail on an empty deque, so popping an empty
stack does nothing. -/
def stack.pop (m : stack) : Except err stack :=
  match m.deque.getLast? with
  | none => .ok m
  | some b =>
      match m.call b ⟨LQUIT, []⟩ with
      | .error e => .error e
      | .ok (_, m1) =>
          match m1.deque.dropLast.getLast? with
          | none => .ok { m1 with deque := m1.deque.dropLast }
          | some c =>
              match ({ m1 with deque := m1.deque.dropLast } : stack).call
                  c ⟨LBACK, []⟩ with
              | .error e => .error e
              | .ok (_, m3) => .ok m3

/-- Model of the protected `fsm::stack::replace(current, next)` as `set`
invokes it, with `current` the reference `deque.back()`: fire LQUIT on
the current back, overwrite the back slot with `next`, fire LINIT on it.
`set` only reaches this with a non-empty deque. -/
def stack.replace (m : stack) (next : state) : Except err stack :=
  match m.deque.getLast? with
  | none => .error .emptyBack
  | some cur =>
      match m.call cur ⟨LQUIT, []⟩ with
      | .error e => .error e
      | .ok (_, m1) =>
          match ({ m1 with deque := m1.deque.dropLast ++ [next] } : stack).call
              next ⟨LINIT, []⟩ with
          | .error e => .error e
          | .ok (_, m3) => .ok m3

/-- Model of `fsm::stack::set`: replace the current back when the deque
is non-empty, otherwise push. -/
def stack.set (m : stack) (s : state) : Except err stack :=
  if m.deque.isEmpty then m.push s else m.replace s

/-- The forced-cancellation loop of `fsm::stack::command`: for each level
recorded as aborted (innermost first), `call(level, LQUIT)` runs; the
interleaved `deque.erase` calls are modelled as one truncation by the
caller, since `call` never touches the deque. -/
def quitAborted : stack → List state → Except err stack
  | m, [] => .ok m
  | m, s :: rest =>
      match m.call s ⟨LQUIT, []⟩ with
      | .error e => .error e
      | .ok (_, m1) => quitAborted m1 rest

/-- The bubble-up walk of `fsm::stack::command` over the reversed deque
(innermost state first), carrying the aborted levels collected so far.
A level that declines joins `aborted`; the first level that accepts
triggers the quit loop, the erasure of the aborted suffix and the
assignment of `current_trigger`. -/
def commandWalk (t : state) : stack → List state → List state → Except err (Bool × stack)
  | m, [], _ => .ok (false, m)
  | m, self :: rest, aborted =>
      match m.call self t with
      | .error e => .error e
      | .ok (false, m1) => commandWalk t m1 rest (aborted ++ [self])
      | .ok (true, m1) =>
          match quitAborted m1 aborted with
          | .error e => .error e
          | .ok m2 =>
              .ok (true, { m2 with
                deque := m2.deque.take (m2.deque.length - aborted.length),
                current_trigger := t })

/-- Model of `fsm::stack::command(trigger)`: nothing happens on an empty
deque; otherwise `current_trigger` is reset to the default state before
the walk starts (and is set to the trigger again only on success). -/
def stack.command (m : stack) (t : state) : Except err (Bool × stack) :=
  if m.deque.length = 0 then .ok (false, m)
  else commandWalk t { m with current_trigger := nullState } m.deque.reverse []

/-- Model of `fsm::stack::get_log`: C++ `%` is truncated division
(`Int.tmod`); a position taken on an empty log yields the default
record. -/
def stack.get_log (m : stack) (pos : Int) : transition :=
  let size : Int := m.log.length
  if size = 0 then nullTransition
  else
    let idx : Int := if pos ≥ 0 then pos.tmod size else size - 1 + (pos + 1).tmod size
    m.log.getD idx.toNat nullTransition

/-- Handler-invocation events produced when the forced-cancellation loop
fires LQUIT on one aborted level: one event when the level has a quit
entry, none otherwise. -/
def quitEvt (cbs : List ((Int × Int) × Bool)) (s : state) : List event :=
  match lookupCb cbs (s.name, LQUIT) with
  | some _ => [⟨s.name, LQUIT, []⟩]
  | none => []

/-- History records produced when the forced-cancellation loop fires
LQUIT on one aborted level while the current trigger is `ct`. -/
def quitRec (cbs : List ((Int × Int) × Bool)) (ct : state) (s : state) :
    List transition :=
  match lookupCb cbs (s.name, LQUIT) with
  | some _ => [⟨s, ct, ⟨LQUIT, []⟩⟩]
  | none => []

/-- One bounded round of the destructor loop `while (size()) pop();`,
with explicit fuel. -/
def dtorLoop : Nat → stack → Except err stack
  | 0, m => .ok m
  | n + 1, m =>
      if m.deque.isEmpty then .ok m
      else
        match m.pop with
        | .error e => .error e
        | .ok m1 => dtorLoop n m1

/-- Model of the destructor: each successful `pop` removes exactly one
level, so `deque.length` rounds of fuel empty the stack. -/
def stack.dtor (m : stack) : Except err stack :=
  dtorLoop m.deque.length m

/-- A failed map lookup makes `call` return false with no side effect. -/
lemma call_none {m : stack} {f t : state}
    (h : lookupCb m.callbacks (f.name, t.name) = none) :
    m.call f t = .ok (false, m) := by
  simp [stack.call, h]

/-- A lookup that finds an assigned handler makes `call` log one record,
record the invocation and return true. -/
lemma call_assigned {m : stack} {f t : state}
    (h : lookupCb m.callbacks (f.name, t.name) = some true) :
    m.call f t = .ok (true, { m with
      log := appendLog m.log ⟨f, m.current_trigger, t⟩,
      trace := m.trace ++ [⟨f.name, t.name, t.args⟩] }) := by
  simp [stack.call, h]

/-- A successful lookup result is one of the stored values. -/
lemma lookupCb_mem : ∀ {cbs : List ((Int × Int) × Bool)} {k : Int × Int} {v : Bool},
    lookupCb cbs k = some v → (k, v) ∈ cbs := by
  intro cbs
  induction cbs with
  | nil => intro k v h; simp [lookupCb] at h
  | cons kv rest ih =>
      obtain ⟨k1, v1⟩ := kv
      intro k v h
      rw [lookupCb] at h
      by_cases hk : k1 = k
      · subst hk
        simp at h
        subst h
        exact List.mem_cons_self _ _
      · simp [hk] at h
        exact List.mem_cons_of_mem _ (ih h)

/-- In a fully assigned callback map every successful lookup is `true`. -/
lemma lookup_of_assignedAll {cbs : List ((Int × Int) × Bool)} {k : Int × Int}
    {v : Bool} (hA : assignedAll cbs) (h : lookupCb cbs k = some v) : v = true :=
  hA _ (lookupCb_mem h)

/-- Characterization of the forced-cancellation loop on a fully assigned
callback map: all the LQUIT records and events accumulate, and no other
field of the machine moves. -/
lemma quitAborted_eq (ab : List state) : ∀ m : stack, assignedAll m.callbacks →
    quitAborted m ab = .ok { m with
      log := (ab.flatMap (quitRec m.callbacks m.current_trigger)).foldl appendLog m.log,
      trace := m.trace ++ ab.flatMap (quitEvt m.callbacks) } := by
  induction ab with
  | nil => intro m hA; simp [quitAborted]
  | cons s rest ih =>
      intro m hA
      rcases hq : lookupCb m.callbacks (s.name, LQUIT) with _ | v
      · have hcall : m.call s ⟨LQUIT, []⟩ = .ok (false, m) := call_none hq
        simp only [quitAborted, hcall]
        rw [ih m hA]
        simp [quitRec, quitEvt, hq]
      · have hv := lookup_of_assignedAll hA hq
        subst hv
        have hcall := call_assigned (m := m) (f := s) (t := ⟨LQUIT, []⟩) hq
        simp only [quitAborted, hcall]
        rw [ih]
        · simp [quitRec, quitEvt, hq, List.foldl_cons]
        · exact hA

/-- Levels whose lookup for the trigger fails are recorded as aborted and
do not change the machine. -/
lemma commandWalk_declines (t : state) (ds : List state) :
    ∀ (m : stack) (rest ab : List state),
    (∀ s ∈ ds, lookupCb m.callbacks (s.name, t.name) = none) →
    commandWalk t m (ds ++ rest) ab = commandWalk t m rest (ab ++ ds) := by
  induction ds with
  | nil => intro m rest ab _; simp
  | cons s ds ih =>
      intro m rest ab h
      have h1 : lookupCb m.callbacks (s.name, t.name) = none := h s (by simp)
      have hcall : m.call s t = .ok (false, m) := call_none h1
      rw [List.cons_append]
      simp only [commandWalk, hcall]
      rw [ih m rest (ab ++ [s]) (fun x hx => h x (by simp [hx]))]
      simp

/-- Effect of the walk once it reaches a level with an assigned handler
for the trigger: the handler is invoked, the aborted levels are quit and
erased, and the current trigger becomes the dispatched trigger. -/
lemma commandWalk_accept (t acc : state) (rest ab : List state) (m : stack)
    (hA : assignedAll m.callbacks)
    (hacc : lookupCb m.callbacks (acc.name, t.name) = some true) :
    commandWalk t m (acc :: rest) ab = .ok (true, { m with
      log := (transition.mk acc m.current_trigger t ::
        ab.flatMap (quitRec m.callbacks m.current_trigger)).foldl appendLog m.log,
      deque := m.deque.take (m.deque.length - ab.length),
      current_trigger := t,
      trace := m.trace ++ [⟨acc.name, t.name, t.args⟩] ++
        ab.flatMap (quitEvt m.callbacks) }) := by
  have hcall := call_assigned (m := m) (f := acc) (t := t) hacc
  simp only [commandWalk, hcall]
  rw [quitAborted_eq ab]
  · simp [List.foldl_cons]
  · exact hA

/-- Full characterization of a successful dispatch on a fully assigned
callback map.  The deque splits as `front ++ acc :: sfx` with every level
of the suffix `sfx` (the levels nested inside `acc`) declining the
trigger and `acc` accepting it: the dispatch returns true, the suffix is
erased after receiving LQUIT innermost-first, and every record logged
during the walk carries the reset (null) current trigger. -/
theorem command_accept (m : stack) (t acc : state) (front sfx : List state)
    (hdq : m.deque = front ++ acc :: sfx)
    (hA : assignedAll m.callbacks)
    (hsfx : ∀ s ∈ sfx, lookupCb m.callbacks (s.name, t.name) = none)
    (hacc : lookupCb m.callbacks (acc.name, t.name) = some true) :
    m.command t = .ok (true, { m with
      log := (transition.mk acc nullState t ::
        sfx.reverse.flatMap (quitRec m.callbacks nullState)).foldl appendLog m.log,
      deque := front ++ [acc],
      current_trigger := t,
      trace := m.trace ++ [⟨acc.name, t.name, t.args⟩] ++
        sfx.reverse.flatMap (quitEvt m.callbacks) }) := by
  have hne : m.deque.length ≠ 0 := by simp [hdq]
  rw [stack.command, if_neg hne]
  have hrev : m.deque.reverse = sfx.reverse ++ acc :: front.reverse := by
    simp [hdq]
  rw [hrev]
  rw [commandWalk_declines t sfx.reverse
    { m with current_trigger := nullState } (acc :: front.reverse) []
    (fun s hs => hsfx s (by simpa using hs))]
  rw [List.nil_append]
  rw [commandWalk_accept t acc front.reverse sfx.reverse
    { m with current_trigger := nullState } hA hacc]
  have htake : m.deque.take (m.deque.length - sfx.length) = front ++ [acc] := by
    have : m.deque = (front ++ [acc]) ++ sfx := by simp [hdq]
    rw [this]
    have hlen : ((front ++ [acc]) ++ sfx).length - sfx.length
        = (front ++ [acc]).length := by simp; omega
    rw [hlen, List.take_left]
  simp [htake]

/-- Full characterization of a failed dispatch: when every level declines
the trigger nothing is logged, invoked or erased, but the current trigger
has still been reset to the default state at the start of the walk. -/
theorem command_fail (m : stack) (t : state) (hne : m.deque ≠ [])
    (h : ∀ s ∈ m.deque, lookupCb m.callbacks (s.name, t.name) = none) :
    m.command t = .ok (false, { m with current_trigger := nullState }) := by
  have hlen : m.deque.length ≠ 0 := by simpa using hne
  rw [stack.command, if_neg hlen]
  have := commandWalk_declines t m.deque.reverse
    { m with current_trigger := nullState } [] []
    (fun s hs => h s (by simpa using hs))
  simpa [commandWalk] using this

/-- Truncated remainder of a negated dividend (C++ `%` semantics). -/
lemma tmod_neg_left (a b : Int) : (-a).tmod b = -(a.tmod b) := by
  simp [Int.tmod_def, Int.neg_tdiv, mul_comm]
  ring

/-- The index expression of `get_log`/`get_state` equals the mathematical
(Euclidean) remainder of `pos` by `size`, for both signs of `pos`. -/
lemma cpp_index_emod (pos size : Int) (hs : 0 < size) :
    (if pos ≥ 0 then pos.tmod size else size - 1 + (pos + 1).tmod size)
      = pos % size := by
  by_cases hp : pos ≥ 0
  · rw [if_pos hp]
    exact Int.tmod_eq_emod hp (le_of_lt hs)
  · rw [if_neg hp]
    push_neg at hp
    have hk : pos + 1 = -(-(pos + 1)) := by ring
    set k : Int := -(pos + 1) with hkdef
    have hk0 : 0 ≤ k := by omega
    have h1 : (pos + 1).tmod size = -(k.tmod size) := by
      rw [hk, tmod_neg_left]
    have h2 : k.tmod size = k % size := Int.tmod_eq_emod hk0 (le_of_lt hs)
    set r : Int := k % size with hrdef
    have hr0 : 0 ≤ r := Int.emod_nonneg k (by omega)
    have hrs : r < size := Int.emod_lt_of_pos k hs
    set q : Int := k / size with hqdef
    have hkeq : size * q + r = k := Int.ediv_add_emod k size
    have hd : size * (-(q + 1)) = -(size * q) - size := by ring
    have hpos : pos = (size - 1 - r) + size * (-(q + 1)) := by omega
    rw [h1, h2, hpos, Int.add_mul_emod_self_left,
      Int.emod_eq_of_lt (by omega) (by omega)]
    omega

/-- `get_log` on a non-empty log reads the record at index
`pos mod length`. -/
theorem get_log_mod (m : stack) (pos : Int) (h : m.log ≠ []) :
    m.get_log pos
      = m.log.getD (pos % (m.log.length : Int)).toNat nullTransition := by
  have hn : 0 < m.log.length := List.length_pos.mpr h
  have hs : (0 : Int) < (m.log.length : Int) := by exact_mod_cast hn
  rw [stack.get_log]
  simp only
  rw [if_neg (by omega), cpp_index_emod pos _ hs]

/-- `appendLog` keeps the log within its 50-record capacity. -/
lemma appendLog_length {l : List transition} {r : transition}
    (h : l.length ≤ 50) : (appendLog l r).length ≤ 50 := by
  simp only [appendLog]
  split <;> simp_all

/-- A successful `call` keeps the log within capacity. -/
lemma call_log_length {m : stack} {f t : state} {b : Bool} {m' : stack}
    (hc : m.call f t = .ok (b, m')) (h : m.log.length ≤ 50) :
    m'.log.length ≤ 50 := by
  rw [stack.call] at hc
  split at hc
  · simp at hc
    rw [← hc.2]
    exact h
  · split at hc
    · simp at hc
      rw [← hc.2]
      exact appendLog_length h
    · simp at hc

/-- A successful `push` keeps the log within capacity. -/
lemma push_log_length {m : stack} {s : state} {m' : stack}
    (h : m.push s = .ok m') (hl : m.log.length ≤ 50) : m'.log.length ≤ 50 := by
  rw [stack.push] at h
  split at h
  · split at h
    · simp at h
      rw [← h]
      exact hl
    · split at h
      · simp at h
      · rename_i b1 m1 hc1
        split at h
        · simp at h
        · rename_i b2 m3 hc2
          simp at h
          rw [← h]
          have h1 : m1.log.length ≤ 50 := call_log_length hc1 hl
          exact call_log_length hc2 h1
  · simp at h

/-- A `pop` keeps the log within capacity. -/
lemma pop_log_length {m m' : stack}
    (h : m.pop = .ok m') (hl : m.log.length ≤ 50) : m'.log.length ≤ 50 := by
  rw [stack.pop] at h
  split at h
  · simp at h
    rw [← h]
    exact hl
  · split at h
    · simp at h
    · rename_i b1 m1 hc1
      have h1 : m1.log.length ≤ 50 := call_log_length hc1 hl
      split at h
      · simp at h
        rw [← h]
        exact h1
      · split at h
        · simp at h
        · rename_i b2 m3 hc2
          simp at h
          rw [← h]
          exact call_log_length hc2 h1

/-- A successful `replace` keeps the log within capacity. -/
lemma replace_log_length {m : stack} {s : state} {m' : stack}
    (h : m.replace s = .ok m') (hl : m.log.length ≤ 50) : m'.log.length ≤ 50 := by
  rw [stack.replace] at h
  split at h
  · simp at h
  · split at h
    · simp at h
    · rename_i b1 m1 hc1
      split at h
      · simp at h
      · rename_i b2 m3 hc2
        simp at h
        rw [← h]
        have h1 : m1.log.length ≤ 50 := call_log_length hc1 hl
        exact call_log_length hc2 h1

/-- A successful `set` keeps the log within capacity. -/
lemma set_log_length {m : stack} {s : state} {m' : stack}
    (h : m.set s = .ok m') (hl : m.log.length ≤ 50) : m'.log.length ≤ 50 := by
  rw [stack.set] at h
  split at h
  · exact push_log_length h hl
  · exact replace_log_length h hl

/-- The forced-cancellation loop keeps the log within capacity. -/
lemma quitAborted_log_length (ab : List state) : ∀ {m m' : stack},
    quitAborted m ab = .ok m' → m.log.length ≤ 50 → m'.log.length ≤ 50 := by
  induction ab with
  | nil =>
      intro m m' h hl
      simp [quitAborted] at h
      rw [← h]
      exact hl
  | cons s rest ih =>
      intro m m' h hl
      rw [quitAborted] at h
      split at h
      · simp at h
      · rename_i b1 m1 hc
        exact ih h (call_log_length hc hl)

/-- The dispatch walk keeps the log within capacity. -/
lemma commandWalk_log_length (t : state) (ws : List state) :
    ∀ {ab : List state} {m : stack} {b : Bool} {m' : stack},
    commandWalk t m ws ab = .ok (b, m') → m.log.length ≤ 50 →
    m'.log.length ≤ 50 := by
  induction ws with
  | nil =>
      intro ab m b m' h hl
      simp [commandWalk] at h
      rw [← h.2]
      exact hl
  | cons s rest ih =>
      intro ab m b m' h hl
      rw [commandWalk] at h
      split at h
      · simp at h
      · rename_i m1 hc
        exact ih h (call_log_length hc hl)
      · rename_i m1 hc
        split at h
        · simp at h
        · rename_i m2 hq
          simp at h
          rw [← h.2]
          have h2 : m2.log.length ≤ 50 :=
            quitAborted_log_length ab hq (call_log_length hc hl)
          exact h2

/-- A dispatch keeps the log within capacity. -/
lemma command_log_length {m : stack} {t : state} {b : Bool} {m' : stack}
    (h : m.command t = .ok (b, m')) (hl : m.log.length ≤ 50) :
    m'.log.length ≤ 50 := by
  rw [stack.command] at h
  split at h
  · simp at h
    rw [← h.2]
    exact hl
  · exact commandWalk_log_length t m.deque.reverse h hl

/-- The machines reachable through the public interface of `fsm::stack`:
construction, registration (`on`, assigned or not), `push`, `pop`, `set`,
`command` and direct `call`.  The destructor only iterates `pop`, so its
intermediate machines are reachable through the `pop` rule. -/
inductive Reached : stack → Prop where
  | new (s : state) (m : stack) : stack.new s = .ok m → Reached m
  | onTouch (m : stack) (f t : state) : Reached m → Reached (m.onTouch f t)
  | onAssign (m : stack) (f t : state) : Reached m → Reached (m.onAssign f t)
  | push (m : stack) (s : state) (m' : stack) :
      Reached m → m.push s = .ok m' → Reached m'
  | pop (m m' : stack) : Reached m → m.pop = .ok m' → Reached m'
  | set (m : stack) (s : state) (m' : stack) :
      Reached m → m.set s = .ok m' → Reached m'
  | command (m : stack) (t : state) (b : Bool) (m' : stack) :
      Reached m → m.command t = .ok (b, m') → Reached m'
  | call (m : stack) (f t : state) (b : Bool) (m' : stack) :
      Reached m → m.call f t = .ok (b, m') → Reached m'

/-- Every machine reachable through the public interface keeps at most 50
records in its history log. -/
theorem reached_log_length {m : stack} (h : Reached m) : m.log.length ≤ 50 := by
  induction h with
  | new s m hn =>
      have hbase : stack.new s = .ok (⟨[], [], [s], nullState, []⟩ : stack) := rfl
      rw [hbase] at hn
      simp at hn
      rw [← hn]
      simp
  | onTouch m f t _ ih => exact ih
  | onAssign m f t _ ih => exact ih
  | push m s m' _ hp ih => exact push_log_length hp ih
  | pop m m' _ hp ih => exact pop_log_length hp ih
  | set m s m' _ hp ih => exact set_log_length hp ih
  | command m t b m' _ hp ih => exact command_log_length hp ih
  | call m f t b m' _ hp ih => exact call_log_length hp ih

/-- A key whose entry holds an unassigned (empty) callback makes `call`
log a record and then throw `std::bad_function_call`. -/
lemma call_unassigned {m : stack} {f t : state}
    (h : lookupCb m.callbacks (f.name, t.name) = some false) :
    m.call f t = .error (.badCall { m with
      log := appendLog m.log ⟨f, m.current_trigger, t⟩ }) := by
  simp [stack.call, h]

/-- After `on(f, t) = handler` the key always holds an assigned handler,
whether or not an entry existed before. -/
lemma setCb_lookup (cbs : List ((Int × Int) × Bool)) (k : Int × Int) :
    lookupCb (setCb cbs k) k = some true := by
  induction cbs with
  | nil => simp [setCb, lookupCb]
  | cons kv rest ih =>
      obtain ⟨k1, v1⟩ := kv
      by_cases hk : k1 = k
      · simp [setCb, lookupCb, hk]
      · simp [setCb, lookupCb, hk, ih]

/-- Looking a key up past entries that do not contain it. -/
lemma lookupCb_append_none {cbs l : List ((Int × Int) × Bool)} {k : Int × Int}
    (h : lookupCb cbs k = none) : lookupCb (cbs ++ l) k = lookupCb l k := by
  induction cbs with
  | nil => simp
  | cons kv rest ih =>
      obtain ⟨k1, v1⟩ := kv
      by_cases hk : k1 = k
      · simp [lookupCb, hk] at h
      · rw [lookupCb] at h
        simp [hk] at h
        simp [lookupCb, hk, ih h]

/-- C3, counterexample.  The claim asserts that a totally failed dispatch
leaves the machine's current trigger exactly as it was.  Concretely: on a
one-level stack whose only handler is (65, 84), dispatching trigger 84
succeeds and makes 84 the current trigger; a following dispatch of the
unhandled trigger 85 returns false and leaves the deque and log intact,
but resets the current trigger to the default (null) state, which differs
from 84. -/
theorem fsm_C3_counterexample :
    ((⟨[((65, 84), true)], [], [⟨65, []⟩], nullState, []⟩ : stack).command ⟨84, []⟩
      = .ok (true, ⟨[((65, 84), true)],
          [⟨⟨65, []⟩, nullState, ⟨84, []⟩⟩], [⟨65, []⟩], ⟨84, []⟩,
          [⟨65, 84, []⟩]⟩))
    ∧ ((⟨[((65, 84), true)],
          [⟨⟨65, []⟩, nullState, ⟨84, []⟩⟩], [⟨65, []⟩], ⟨84, []⟩,
          [⟨65, 84, []⟩]⟩ : stack).command ⟨85, []⟩
      = .ok (false, ⟨[((65, 84), true)],
          [⟨⟨65, []⟩, nullState, ⟨84, []⟩⟩], [⟨65, []⟩], nullState,
          [⟨65, 84, []⟩]⟩))
    ∧ (nullState ≠ (⟨84, []⟩ : state)) :=
  ⟨rfl, rfl, by decide⟩

/-- C3, amended.  A dispatch on a non-empty stack in which no level has a
handler for the trigger returns false and leaves the callback table, the
history log, the state stack and the trace exactly as they were; the
current trigger, however, is reset to the default (null) state at the
start of the walk and is left reset on failure (it is reassigned only on
success). -/
theorem fsm_C3_total_failure (m : stack) (u : state)
    (hne : m.deque ≠ [])
    (h : ∀ s ∈ m.deque, lookupCb m.callbacks (s.name, u.name) = none) :
    m.command u = .ok (false, { m with current_trigger := nullState }) :=
  command_fail m u hne h

/-- C3, witness: the amended theorem applied to a concrete two-level
machine with a handler for another trigger only. -/
theorem fsm_C3_witness :
    (⟨[((65, 84), true)], [], [⟨65, []⟩, ⟨66, []⟩], ⟨84, []⟩, []⟩ : stack).command
        ⟨85, []⟩
      = .ok (false, ⟨[((65, 84), true)], [], [⟨65, []⟩, ⟨66, []⟩], nullState, []⟩) :=
  (fsm_C3_total_failure
    (⟨[((65, 84), true)], [], [⟨65, []⟩, ⟨66, []⟩], ⟨84, []⟩, []⟩ : stack)
    ⟨85, []⟩ (by decide) (by decide)).trans rfl

/-- C4, counterexample.  The claim asserts that the record appended by a
successful `call` is (previous state, the trigger that caused the record,
resulting state).  Concretely: with the machine's current trigger holding
the unrelated state 90, `call` on state 65 with trigger 84 appends the
record whose middle (`trigger`) slot is the stale current trigger 90 and
whose third (`current`) slot is the causing trigger 84 — the causing
trigger is not in the middle slot and no resulting state is recorded. -/
theorem fsm_C4_counterexample :
    ((⟨[((65, 84), true)], [], [⟨65, []⟩], ⟨90, []⟩, []⟩ : stack).call
        ⟨65, []⟩ ⟨84, ["x"]⟩
      = .ok (true, ⟨[((65, 84), true)],
          [⟨⟨65, []⟩, ⟨90, []⟩, ⟨84, ["x"]⟩⟩], [⟨65, []⟩], ⟨90, []⟩,
          [⟨65, 84, ["x"]⟩]⟩))
    ∧ (⟨⟨65, []⟩, ⟨90, []⟩, ⟨84, ["x"]⟩⟩ : transition).trigger.name ≠ (84 : Int) :=
  ⟨rfl, by decide⟩

/-- C4, amended.  `call` on a key with no registered callback returns
false with no side effect at all; on a key with a registered (assigned)
callback it appends exactly one history record — the triple (the state
looked up, the machine's current-trigger value at the time of the call,
the trigger that caused the record) — invokes the callback with the
trigger's argument list, and returns true. -/
theorem fsm_C4_invoke_spec (m : stack) (f t : state) :
    (lookupCb m.callbacks (f.name, t.name) = none → m.call f t = .ok (false, m))
    ∧ (lookupCb m.callbacks (f.name, t.name) = some true →
        m.call f t = .ok (true, { m with
          log := appendLog m.log ⟨f, m.current_trigger, t⟩,
          trace := m.trace ++ [⟨f.name, t.name, t.args⟩] })) :=
  ⟨fun h => call_none h, fun h => call_assigned h⟩

/-- C4, witness: both branches of the amended theorem applied to concrete
machines. -/
theorem fsm_C4_witness :
    ((⟨[((65, 84), true)], [], [⟨65, []⟩], nullState, []⟩ : stack).call
        ⟨66, []⟩ ⟨84, []⟩ = .ok (false,
          ⟨[((65, 84), true)], [], [⟨65, []⟩], nullState, []⟩))
    ∧ ((⟨[((65, 84), true)], [], [⟨65, []⟩], nullState, []⟩ : stack).call
        ⟨65, []⟩ ⟨84, ["7"]⟩ = .ok (true,
          ⟨[((65, 84), true)], [⟨⟨65, []⟩, nullState, ⟨84, ["7"]⟩⟩],
            [⟨65, []⟩], nullState, [⟨65, 84, ["7"]⟩]⟩)) :=
  ⟨((fsm_C4_invoke_spec
      (⟨[((65, 84), true)], [], [⟨65, []⟩], nullState, []⟩ : stack)
      ⟨66, []⟩ ⟨84, []⟩).1 rfl).trans rfl,
   ((fsm_C4_invoke_spec
      (⟨[((65, 84), true)], [], [⟨65, []⟩], nullState, []⟩ : stack)
      ⟨65, []⟩ ⟨84, ["7"]⟩).2 rfl).trans rfl⟩

/-- C5.  The claim asserts that `set` on an empty stack behaves as a push
in which the access to the previous innermost state never occurs.  In the
source, `set` on an empty deque does invoke `push`, and `push`'s
self-test short-circuits safely, but `push` then unconditionally
evaluates `deque.back()` — on the empty deque — to fire the pause hook,
before anything is appended: the access does occur and is undefined
behavior.  The failing input is concrete: construct with state 65, `pop`
to empty the stack, then `set` (or `push`) state 66. -/
theorem fsm_C5_empty_set_undefined :
    (stack.new ⟨65, []⟩ = .ok (⟨[], [], [⟨65, []⟩], nullState, []⟩ : stack))
    ∧ ((⟨[], [], [⟨65, []⟩], nullState, []⟩ : stack).pop
        = .ok (⟨[], [], [], nullState, []⟩ : stack))
    ∧ ((⟨[], [], [], nullState, []⟩ : stack).set ⟨66, []⟩ = .error .emptyBack)
    ∧ ((⟨[], [], [], nullState, []⟩ : stack).push ⟨66, []⟩ = .error .emptyBack) :=
  ⟨rfl, rfl, rfl, rfl⟩

/-- C6, counterexample.  The claim asserts that a bare `on` creates an
entry bound to a harmless no-op.  Concretely: after a bare
`on(65, 84)` whose returned slot is never assigned, invoking (65, 84)
does not execute as a no-op — it finds the entry, appends a history
record, and then throws `std::bad_function_call` on the empty stored
`std::function`. -/
theorem fsm_C6_counterexample :
    ((⟨[], [], [⟨65, []⟩], nullState, []⟩ : stack).onTouch ⟨65, []⟩ ⟨84, []⟩
      = ⟨[((65, 84), false)], [], [⟨65, []⟩], nullState, []⟩)
    ∧ ((⟨[((65, 84), false)], [], [⟨65, []⟩], nullState, []⟩ : stack).call
        ⟨65, []⟩ ⟨84, []⟩
      = .error (.badCall ⟨[((65, 84), false)],
          [⟨⟨65, []⟩, nullState, ⟨84, []⟩⟩], [⟨65, []⟩], nullState, []⟩)) :=
  ⟨rfl, rfl⟩

/-- C6, amended.  `on(state, trigger) = handler` always succeeds and
leaves the key bound to an assigned handler, silently replacing any
previous one; a bare `on` on a fresh key creates an entry holding an
empty (default-constructed) callback, and invoking that key before any
handler is assigned appends a history record and then throws
`std::bad_function_call` instead of executing as a harmless no-op. -/
theorem fsm_C6_on_registration (m : stack) (f t : state) :
    (lookupCb (m.onAssign f t).callbacks (f.name, t.name) = some true)
    ∧ (lookupCb m.callbacks (f.name, t.name) = none →
        lookupCb (m.onTouch f t).callbacks (f.name, t.name) = some false)
    ∧ (lookupCb m.callbacks (f.name, t.name) = some false →
        m.call f t = .error (.badCall { m with
          log := appendLog m.log ⟨f, m.current_trigger, t⟩ })) := by
  refine ⟨setCb_lookup m.callbacks (f.name, t.name), fun h => ?_, call_unassigned⟩
  rw [stack.onTouch, touchCb, h]
  rw [lookupCb_append_none h]
  simp [lookupCb]

/-- C6, witness: the amended theorem applied to a concrete machine, with
the re-registration branch exercised on a key that already holds a
handler. -/
theorem fsm_C6_witness :
    (lookupCb ((⟨[((65, 84), false)], [], [⟨65, []⟩], nullState, []⟩ : stack).onAssign
        ⟨65, []⟩ ⟨84, []⟩).callbacks (65, 84) = some true)
    ∧ (lookupCb ((⟨[], [], [⟨65, []⟩], nullState, []⟩ : stack).onTouch
        ⟨65, []⟩ ⟨84, []⟩).callbacks (65, 84) = some false)
    ∧ ((⟨[((65, 84), false)], [], [⟨65, []⟩], nullState, []⟩ : stack).call
        ⟨65, []⟩ ⟨84, []⟩
      = .error (.badCall ⟨[((65, 84), false)],
          [⟨⟨65, []⟩, nullState, ⟨84, []⟩⟩], [⟨65, []⟩], nullState, []⟩)) :=
  ⟨(fsm_C6_on_registration
      (⟨[((65, 84), false)], [], [⟨65, []⟩], nullState, []⟩ : stack)
      ⟨65, []⟩ ⟨84, []⟩).1,
   (fsm_C6_on_registration
      (⟨[], [], [⟨65, []⟩], nullState, []⟩ : stack) ⟨65, []⟩ ⟨84, []⟩).2.1 rfl,
   ((fsm_C6_on_registration
      (⟨[((65, 84), false)], [], [⟨65, []⟩], nullState, []⟩ : stack)
      ⟨65, []⟩ ⟨84, []⟩).2.2 rfl).trans rfl⟩

/-- C1, counterexample.  The claim asserts that on stack [A, B, C] where
only A has a handler for trigger T, dispatching T invokes no handler for
C or B.  Concretely, with A = 65, B = 66, C = 67, T = 84 and a quit
handler registered for C, dispatching T also invokes C's quit handler
(the trace contains the invocation with source 67), because the dispatch
fires the quit hook on every level it cancels. -/
theorem fsm_C1_counterexample :
    ((⟨[((65, 84), true), ((67, LQUIT), true)], [],
        [⟨65, []⟩, ⟨66, []⟩, ⟨67, []⟩], nullState, []⟩ : stack).command ⟨84, []⟩
      = .ok (true, ⟨[((65, 84), true), ((67, LQUIT), true)],
          [⟨⟨65, []⟩, nullState, ⟨84, []⟩⟩, ⟨⟨67, []⟩, nullState, ⟨LQUIT, []⟩⟩],
          [⟨65, []⟩], ⟨84, []⟩,
          [⟨65, 84, []⟩, ⟨67, LQUIT, []⟩]⟩))
    ∧ ((⟨67, LQUIT, []⟩ : event)
        ∈ ([⟨65, 84, []⟩, ⟨67, LQUIT, []⟩] : List event)) :=
  ⟨rfl, by decide⟩

/-- C1, amended.  For a 3-level stack [A, B, C] (A the root) in which
only A has a handler for trigger T (with every registered callback
assigned), dispatching T invokes no handler of C or B for T itself,
invokes A's handler exactly once, fires the quit hook on C and then B as
it removes them (invoking their quit handlers when such handlers are
registered), leaves the stack as [A], sets the current trigger to T and
returns true. -/
theorem fsm_C1_dispatch_bubble_up (m : stack) (A B C T : state)
    (hdq : m.deque = [A, B, C])
    (hA : assignedAll m.callbacks)
    (hAT : lookupCb m.callbacks (A.name, T.name) = some true)
    (hBT : lookupCb m.callbacks (B.name, T.name) = none)
    (hCT : lookupCb m.callbacks (C.name, T.name) = none) :
    m.command T = .ok (true, { m with
      log := (transition.mk A nullState T ::
        (quitRec m.callbacks nullState C ++ quitRec m.callbacks nullState B)).foldl
          appendLog m.log,
      deque := [A],
      current_trigger := T,
      trace := m.trace ++ [⟨A.name, T.name, T.args⟩] ++
        (quitEvt m.callbacks C ++ quitEvt m.callbacks B) }) := by
  have hsfx : ∀ s ∈ [B, C], lookupCb m.callbacks (s.name, T.name) = none := by
    intro s hs
    rcases (by simpa using hs : s = B ∨ s = C) with h | h <;> subst h <;> assumption
  have h := command_accept m T A [] [B, C] (by simpa using hdq) hA hsfx hAT
  simpa using h

/-- C1, witness: the amended theorem applied to a machine [65, 66, 67]
whose only handler is (65, 84). -/
theorem fsm_C1_witness :
    (⟨[((65, 84), true)], [], [⟨65, []⟩, ⟨66, []⟩, ⟨67, []⟩],
        nullState, []⟩ : stack).command ⟨84, []⟩
      = .ok (true, ⟨[((65, 84), true)],
          [⟨⟨65, []⟩, nullState, ⟨84, []⟩⟩], [⟨65, []⟩], ⟨84, []⟩,
          [⟨65, 84, []⟩]⟩) :=
  (fsm_C1_dispatch_bubble_up
    (⟨[((65, 84), true)], [], [⟨65, []⟩, ⟨66, []⟩, ⟨67, []⟩], nullState, []⟩ : stack)
    ⟨65, []⟩ ⟨66, []⟩ ⟨67, []⟩ ⟨84, []⟩
    rfl (by decide) rfl rfl rfl).trans rfl

/-- C2, counterexample.  The claim asserts that a level cancelled during
a successful dispatch is removed without firing its end (quit) hook.
Concretely, on stack [65, 66] with handlers (65, 84) and (66, quit),
dispatching 84 fires the quit hook of the cancelled level 66: its quit
handler is invoked (the trace contains the invocation) and a quit record
is logged. -/
theorem fsm_C2_counterexample :
    ((⟨[((65, 84), true), ((66, LQUIT), true)], [], [⟨65, []⟩, ⟨66, []⟩],
        nullState, []⟩ : stack).command ⟨84, []⟩
      = .ok (true, ⟨[((65, 84), true), ((66, LQUIT), true)],
          [⟨⟨65, []⟩, nullState, ⟨84, []⟩⟩, ⟨⟨66, []⟩, nullState, ⟨LQUIT, []⟩⟩],
          [⟨65, []⟩], ⟨84, []⟩,
          [⟨65, 84, []⟩, ⟨66, LQUIT, []⟩]⟩))
    ∧ ((⟨66, LQUIT, []⟩ : event)
        ∈ ([⟨65, 84, []⟩, ⟨66, LQUIT, []⟩] : List event)) :=
  ⟨rfl, by decide⟩

/-- C2, amended.  During a successful dispatch every inner level that
declined the trigger before an outer level accepted it is forcibly
terminated: its end (quit) hook is fired through the ordinary call
routine, innermost level first (invoking a registered quit handler and
logging a record), and the level is then removed directly from the
stack; no resume (back) hook fires for any level — every event the
cancellation adds is a quit-hook invocation — in contrast to a normal
pop, which fires resume on the newly exposed state. -/
theorem fsm_C2_forced_cancellation (m : stack) (t acc : state)
    (front sfx : List state)
    (hdq : m.deque = front ++ acc :: sfx)
    (hA : assignedAll m.callbacks)
    (hsfx : ∀ s ∈ sfx, lookupCb m.callbacks (s.name, t.name) = none)
    (hacc : lookupCb m.callbacks (acc.name, t.name) = some true) :
    (m.command t = .ok (true, { m with
      log := (transition.mk acc nullState t ::
        sfx.reverse.flatMap (quitRec m.callbacks nullState)).foldl appendLog m.log,
      deque := front ++ [acc],
      current_trigger := t,
      trace := m.trace ++ [⟨acc.name, t.name, t.args⟩] ++
        sfx.reverse.flatMap (quitEvt m.callbacks) }))
    ∧ (∀ e ∈ sfx.reverse.flatMap (quitEvt m.callbacks), e.act = LQUIT) := by
  refine ⟨command_accept m t acc front sfx hdq hA hsfx hacc, ?_⟩
  intro e he
  rw [List.mem_flatMap] at he
  obtain ⟨s, _, he⟩ := he
  rw [quitEvt] at he
  rcases hq : lookupCb m.callbacks (s.name, LQUIT) with _ | v
  · rw [hq] at he
    simp at he
  · rw [hq] at he
    simp at he
    rw [he]

/-- C2, witness: the amended theorem applied to a machine
[60, 65, 66] in which 65 accepts trigger 84 and the cancelled level 66
has a quit handler. -/
theorem fsm_C2_witness :
    ((⟨[((65, 84), true), ((66, LQUIT), true)], [],
        [⟨60, []⟩, ⟨65, []⟩, ⟨66, []⟩], ⟨90, []⟩, []⟩ : stack).command ⟨84, []⟩
      = .ok (true, ⟨[((65, 84), true), ((66, LQUIT), true)],
          [⟨⟨65, []⟩, nullState, ⟨84, []⟩⟩, ⟨⟨66, []⟩, nullState, ⟨LQUIT, []⟩⟩],
          [⟨60, []⟩, ⟨65, []⟩], ⟨84, []⟩,
          [⟨65, 84, []⟩, ⟨66, LQUIT, []⟩]⟩)) :=
  ((fsm_C2_forced_cancellation
    (⟨[((65, 84), true), ((66, LQUIT), true)], [],
        [⟨60, []⟩, ⟨65, []⟩, ⟨66, []⟩], ⟨90, []⟩, []⟩ : stack)
    ⟨84, []⟩ ⟨65, []⟩ [⟨60, []⟩] [⟨66, []⟩]
    rfl (by decide) (by decide) rfl).1).trans rfl

/-- C7.  Pushing a state whose name equals the current innermost state's
name is a complete no-op: the machine is returned unchanged, and in
particular no hook fires.  Replacing (`set`) the current innermost state
with itself, in contrast, still fires its end (quit) hook and then its
begin (init) hook — when those hooks have assigned handlers, both are
invoked and both log a record — while the stack itself is unchanged. -/
theorem fsm_C7_self_push_vs_self_replace (m : stack) (s b : state)
    (front : List state) :
    (m.deque.getLast? = some b → b.name = s.name → m.push s = .ok m)
    ∧ (m.deque = front ++ [s] →
        lookupCb m.callbacks (s.name, LQUIT) = some true →
        lookupCb m.callbacks (s.name, LINIT) = some true →
        m.set s = .ok { m with
          log := appendLog (appendLog m.log ⟨s, m.current_trigger, ⟨LQUIT, []⟩⟩)
            ⟨s, m.current_trigger, ⟨LINIT, []⟩⟩,
          trace := m.trace ++ [⟨s.name, LQUIT, []⟩, ⟨s.name, LINIT, []⟩] }) := by
  constructor
  · intro hL hb
    rw [stack.push]
    simp only [hL]
    rw [if_pos hb]
  · intro hdq hq hi
    have hne : m.deque.isEmpty = false := by rw [hdq]; simp
    rw [stack.set, hne]
    simp only [Bool.false_eq_true, if_false]
    have hL : m.deque.getLast? = some s := by rw [hdq]; exact List.getLast?_concat _
    rw [stack.replace]
    simp only [hL]
    rw [call_assigned hq]
    simp only
    rw [call_assigned]
    · have hdrop : m.deque.dropLast ++ [s] = m.deque := by
        rw [hdq, List.dropLast_concat]
      simp [hdrop]
    · exact hi

/-- C7, witness: the no-op branch applied with a pushed state that is
name-equal (but not argument-equal) to the innermost state, and the
refresh branch applied to a concrete two-level machine. -/
theorem fsm_C7_witness :
    ((⟨[], [], [⟨65, []⟩], nullState, []⟩ : stack).push ⟨65, ["y"]⟩
      = .ok (⟨[], [], [⟨65, []⟩], nullState, []⟩ : stack))
    ∧ ((⟨[((65, LQUIT), true), ((65, LINIT), true)], [],
          [⟨60, []⟩, ⟨65, []⟩], ⟨90, []⟩, []⟩ : stack).set ⟨65, []⟩
      = .ok (⟨[((65, LQUIT), true), ((65, LINIT), true)],
          [⟨⟨65, []⟩, ⟨90, []⟩, ⟨LQUIT, []⟩⟩, ⟨⟨65, []⟩, ⟨90, []⟩, ⟨LINIT, []⟩⟩],
          [⟨60, []⟩, ⟨65, []⟩], ⟨90, []⟩,
          [⟨65, LQUIT, []⟩, ⟨65, LINIT, []⟩]⟩)) :=
  ⟨(fsm_C7_self_push_vs_self_replace
      (⟨[], [], [⟨65, []⟩], nullState, []⟩ : stack) ⟨65, ["y"]⟩ ⟨65, []⟩ []).1
      rfl rfl,
   ((fsm_C7_self_push_vs_self_replace
      (⟨[((65, LQUIT), true), ((65, LINIT), true)], [],
        [⟨60, []⟩, ⟨65, []⟩], ⟨90, []⟩, []⟩ : stack) ⟨65, []⟩ ⟨65, []⟩
      [⟨60, []⟩]).2 rfl rfl rfl).trans rfl⟩

/-- C8.  `pop` on an empty stack is a complete no-op and does not fail.
On a one-level stack it fires the quit hook of the innermost state and
removes it, leaving the stack empty (no resume hook fires, as no state
is exposed).  On a deeper stack it fires the quit hook of the innermost
state, removes it, and then fires the back (resume) hook on the newly
exposed innermost state; with assigned handlers for those hooks, each
firing invokes the handler and logs one record. -/
theorem fsm_C8_pop_spec (m : stack) (b c : state) (front : List state) :
    (m.deque = [] → m.pop = .ok m)
    ∧ (m.deque = [b] → lookupCb m.callbacks (b.name, LQUIT) = some true →
        m.pop = .ok { m with
          log := appendLog m.log ⟨b, m.current_trigger, ⟨LQUIT, []⟩⟩,
          deque := [],
          trace := m.trace ++ [⟨b.name, LQUIT, []⟩] })
    ∧ (m.deque = front ++ [c, b] →
        lookupCb m.callbacks (b.name, LQUIT) = some true →
        lookupCb m.callbacks (c.name, LBACK) = some true →
        m.pop = .ok { m with
          log := appendLog (appendLog m.log ⟨b, m.current_trigger, ⟨LQUIT, []⟩⟩)
            ⟨c, m.current_trigger, ⟨LBACK, []⟩⟩,
          deque := front ++ [c],
          trace := m.trace ++ [⟨b.name, LQUIT, []⟩, ⟨c.name, LBACK, []⟩] }) := by
  refine ⟨?_, ?_, ?_⟩
  · intro hdq
    rw [stack.pop]
    have hL : m.deque.getLast? = none := by rw [hdq]; rfl
    simp only [hL]
  · intro hdq hq
    rw [stack.pop]
    have hL : m.deque.getLast? = some b := by rw [hdq]; rfl
    simp only [hL]
    rw [call_assigned hq]
    simp only
    have hdrop : m.deque.dropLast = [] := by rw [hdq]; rfl
    simp [hdrop]
  · intro hdq hq hbk
    rw [stack.pop]
    have hL : m.deque.getLast? = some b := by
      rw [hdq, show front ++ [c, b] = (front ++ [c]) ++ [b] by simp]
      exact List.getLast?_concat _
    simp only [hL]
    rw [call_assigned hq]
    simp only
    have hdrop : m.deque.dropLast = front ++ [c] := by
      rw [hdq, show front ++ [c, b] = (front ++ [c]) ++ [b] by simp]
      exact List.dropLast_concat
    rw [hdrop]
    have hL2 : (front ++ [c]).getLast? = some c := List.getLast?_concat _
    simp only [hL2]
    rw [call_assigned]
    · simp
    · exact hbk

/-- C8, witness: the three branches of the theorem applied to concrete
machines: the empty stack, a one-level stack with a quit handler, and a
two-level stack with quit and back handlers. -/
theorem fsm_C8_witness :
    ((⟨[], [], [], ⟨90, []⟩, []⟩ : stack).pop = .ok (⟨[], [], [], ⟨90, []⟩, []⟩ : stack))
    ∧ ((⟨[((66, LQUIT), true)], [], [⟨66, []⟩], ⟨90, []⟩, []⟩ : stack).pop
      = .ok (⟨[((66, LQUIT), true)],
          [⟨⟨66, []⟩, ⟨90, []⟩, ⟨LQUIT, []⟩⟩], [], ⟨90, []⟩,
          [⟨66, LQUIT, []⟩]⟩))
    ∧ ((⟨[((66, LQUIT), true), ((65, LBACK), true)], [],
          [⟨65, []⟩, ⟨66, []⟩], ⟨90, []⟩, []⟩ : stack).pop
      = .ok (⟨[((66, LQUIT), true), ((65, LBACK), true)],
          [⟨⟨66, []⟩, ⟨90, []⟩, ⟨LQUIT, []⟩⟩, ⟨⟨65, []⟩, ⟨90, []⟩, ⟨LBACK, []⟩⟩],
          [⟨65, []⟩], ⟨90, []⟩,
          [⟨66, LQUIT, []⟩, ⟨65, LBACK, []⟩]⟩)) :=
  ⟨(fsm_C8_pop_spec (⟨[], [], [], ⟨90, []⟩, []⟩ : stack)
      nullState nullState []).1 rfl,
   ((fsm_C8_pop_spec (⟨[((66, LQUIT), true)], [], [⟨66, []⟩], ⟨90, []⟩, []⟩ : stack)
      ⟨66, []⟩ nullState []).2.1 rfl rfl).trans rfl,
   ((fsm_C8_pop_spec (⟨[((66, LQUIT), true), ((65, LBACK), true)], [],
        [⟨65, []⟩, ⟨66, []⟩], ⟨90, []⟩, []⟩ : stack)
      ⟨66, []⟩ ⟨65, []⟩ []).2.2 rfl rfl rfl).trans rfl⟩

/-- On a log still within capacity, the bounded append keeps the whole
log and appends when below capacity, and evicts exactly the oldest
record when at capacity. -/
lemma appendLog_eviction {l : List transition} (r : transition)
    (h : l.length ≤ 50) :
    appendLog l r = if l.length = 50 then l.tail ++ [r] else l ++ [r] := by
  simp only [appendLog]
  by_cases h50 : l.length = 50
  · have hlen : (l ++ [r]).length > 50 := by simp [h50]
    rw [if_pos hlen, if_pos h50]
    cases l with
    | nil => simp at h50
    | cons x xs => simp
  · have hlen : ¬(l ++ [r]).length > 50 := by simp; omega
    rw [if_neg hlen, if_neg h50]

/-- Folding the bounded append over any sequence of records keeps
exactly the most recent 50 of the accumulated records, oldest first
(when at most 50 have accumulated, all of them, still oldest first). -/
lemma foldl_appendLog (rs : List transition) : ∀ l : List transition,
    l.length ≤ 50 →
    List.foldl appendLog l rs = (l ++ rs).drop ((l ++ rs).length - 50) := by
  induction rs with
  | nil =>
      intro l hl
      rw [List.append_nil, List.foldl_nil, Nat.sub_eq_zero_of_le hl,
        List.drop_zero]
  | cons r rs ih =>
      intro l hl
      rw [List.foldl_cons, ih (appendLog l r) (appendLog_length hl)]
      rw [appendLog_eviction r hl]
      by_cases h50 : l.length = 50
      · rw [if_pos h50]
        cases l with
        | nil => simp at h50
        | cons x xs =>
            have hxs : xs.length = 49 := by simp at h50; omega
            have e1 : ((x :: xs).tail ++ [r]) ++ rs = xs ++ r :: rs := by simp
            rw [e1]
            have e2 : (x :: xs) ++ r :: rs = x :: (xs ++ r :: rs) := by simp
            rw [e2]
            have l1 : (xs ++ r :: rs).length - 50 = rs.length := by
              simp [hxs]
              omega
            have l2 : (x :: (xs ++ r :: rs)).length - 50 = rs.length + 1 := by
              simp [hxs]
            rw [l1, l2, List.drop_succ_cons]
      · rw [if_neg h50]
        have e3 : (l ++ [r]) ++ rs = l ++ r :: rs := by simp
        rw [e3]

/-- C9.  The history log never exceeds its fixed capacity of 50 records
on any machine reachable through the public interface; the bounded
append keeps all records while below capacity and evicts exactly the
oldest at capacity, so any sequence of appends retains exactly the most
recent 50 records oldest-first; `get_log` on a non-empty log returns the
record at index `pos` taken modulo the log length for any signed `pos`,
with index −1 the most recent record; and `get_log` on an empty log
returns the default (empty) sentinel record instead of failing. -/
theorem fsm_C9_history_bound :
    (∀ m : stack, Reached m → m.log.length ≤ 50)
    ∧ (∀ (l : List transition) (r : transition), l.length ≤ 50 →
        appendLog l r = if l.length = 50 then l.tail ++ [r] else l ++ [r])
    ∧ (∀ rs : List transition,
        List.foldl appendLog [] rs = rs.drop (rs.length - 50))
    ∧ (∀ (m : stack) (pos : Int), m.log ≠ [] →
        m.get_log pos
          = m.log.getD (pos % (m.log.length : Int)).toNat nullTransition)
    ∧ (∀ m : stack, m.log ≠ [] →
        m.get_log (-1) = m.log.getD (m.log.length - 1) nullTransition)
    ∧ (∀ (m : stack) (pos : Int), m.log = [] → m.get_log pos = nullTransition) := by
  refine ⟨fun m h => reached_log_length h,
    fun l r h => appendLog_eviction r h,
    fun rs => by simpa using foldl_appendLog rs [] (by simp),
    fun m pos h => get_log_mod m pos h,
    fun m h => ?_,
    fun m pos h => by rw [stack.get_log]; simp [h]⟩
  rw [get_log_mod m (-1) h]
  have hn : 0 < m.log.length := List.length_pos.mpr h
  have hmod : (-1 : Int) % (m.log.length : Int) = (m.log.length : Int) - 1 := by
    have hrw : (-1 : Int)
        = ((m.log.length : Int) - 1) + (m.log.length : Int) * (-1) := by ring
    rw [hrw, Int.add_mul_emod_self_left,
      Int.emod_eq_of_lt (by omega) (by omega)]
  rw [hmod]
  congr 1
  omega

/-- C9, witness: the bound applied to a freshly constructed machine, the
eviction form applied to the empty log, and the indexing branches applied
to a one-record log and to the empty log. -/
theorem fsm_C9_witness :
    ((⟨[], [], [⟨65, []⟩], nullState, []⟩ : stack).log.length ≤ 50)
    ∧ (appendLog [] nullTransition = [nullTransition])
    ∧ ((⟨[], [⟨⟨65, []⟩, nullState, ⟨84, []⟩⟩], [], nullState, []⟩ : stack).get_log
        (-1) = ⟨⟨65, []⟩, nullState, ⟨84, []⟩⟩)
    ∧ ((⟨[], [⟨⟨65, []⟩, nullState, ⟨84, []⟩⟩], [], nullState, []⟩ : stack).get_log
        7 = ⟨⟨65, []⟩, nullState, ⟨84, []⟩⟩)
    ∧ ((⟨[], [], [], nullState, []⟩ : stack).get_log 3 = nullTransition) :=
  ⟨fsm_C9_history_bound.1 _ (Reached.new ⟨65, []⟩ _ rfl),
   (fsm_C9_history_bound.2.1 [] nullTransition (by decide)).trans rfl,
   (fsm_C9_history_bound.2.2.2.2.1
      (⟨[], [⟨⟨65, []⟩, nullState, ⟨84, []⟩⟩], [], nullState, []⟩ : stack)
      (by decide)).trans rfl,
   (fsm_C9_history_bound.2.2.2.1
      (⟨[], [⟨⟨65, []⟩, nullState, ⟨84, []⟩⟩], [], nullState, []⟩ : stack)
      7 (by decide)).trans rfl,
   fsm_C9_history_bound.2.2.2.2.2 (⟨[], [], [], nullState, []⟩ : stack) 3 rfl⟩

/-- An end-to-end run exercising every hook-firing operation of the
machine: construction with state 1 (the init hook fires on a still-empty
callback map, so nothing can be logged there), registration of handlers
for every lifecycle hook used plus the ordinary trigger 84, a `push` of
state 2 (pause hook on 1, init hook on 2), a dispatch of trigger 84
(accepted at the root, forced cancellation of level 2 with its quit
hook), a `push` of state 3, a `set` to state 2 (quit hook on 3, init
hook on 2), and finally the destructor loop (quit on 2, back on 1, quit
on 1). -/
def lifecycleDemo : Except err stack := do
  let m0 ← stack.new ⟨1, []⟩
  let m1 := ((((((((m0.onAssign ⟨1, []⟩ ⟨LPUSH, []⟩).onAssign ⟨1, []⟩
      ⟨LBACK, []⟩).onAssign ⟨1, []⟩ ⟨LQUIT, []⟩).onAssign ⟨2, []⟩
      ⟨LINIT, []⟩).onAssign ⟨2, []⟩ ⟨LQUIT, []⟩).onAssign ⟨3, []⟩
      ⟨LINIT, []⟩).onAssign ⟨3, []⟩ ⟨LQUIT, []⟩).onAssign ⟨1, []⟩ ⟨84, []⟩)
  let m2 ← m1.push ⟨2, []⟩
  let p ← m2.command ⟨84, []⟩
  let m3 ← p.2.push ⟨3, []⟩
  let m4 ← m3.set ⟨2, []⟩
  m4.dtor

/-- C10.  Every hook-firing operation — push (pause then init), pop
(quit then back), set/replace (quit then init), construction (init),
destruction (quit per level) and forced cancellation inside dispatch
(quit) — goes through the one `call` routine, so each hook with a
registered handler appends one record to the same history log the
dispatched triggers are logged in: after the `lifecycleDemo` run the
single log holds, in order, the pause/init records of the push, the
dispatch record of trigger 84 followed by the forced-cancellation quit
record, the pause/init records of the second push, the quit/init records
of the set, and the quit/back/quit records of the destructor — lifecycle
records interleaved with the dispatched-trigger record, each carrying
the machine's current trigger at the time it was appended (null before
the dispatch succeeded, trigger 84 after). -/
theorem fsm_C10_shared_log_interleaving :
    lifecycleDemo = .ok ⟨
      [((1, LPUSH), true), ((1, LBACK), true), ((1, LQUIT), true),
       ((2, LINIT), true), ((2, LQUIT), true), ((3, LINIT), true),
       ((3, LQUIT), true), ((1, 84), true)],
      [⟨⟨1, []⟩, nullState, ⟨LPUSH, []⟩⟩,
       ⟨⟨2, []⟩, nullState, ⟨LINIT, []⟩⟩,
       ⟨⟨1, []⟩, nullState, ⟨84, []⟩⟩,
       ⟨⟨2, []⟩, nullState, ⟨LQUIT, []⟩⟩,
       ⟨⟨1, []⟩, ⟨84, []⟩, ⟨LPUSH, []⟩⟩,
       ⟨⟨3, []⟩, ⟨84, []⟩, ⟨LINIT, []⟩⟩,
       ⟨⟨3, []⟩, ⟨84, []⟩, ⟨LQUIT, []⟩⟩,
       ⟨⟨2, []⟩, ⟨84, []⟩, ⟨LINIT, []⟩⟩,
       ⟨⟨2, []⟩, ⟨84, []⟩, ⟨LQUIT, []⟩⟩,
       ⟨⟨1, []⟩, ⟨84, []⟩, ⟨LBACK, []⟩⟩,
       ⟨⟨1, []⟩, ⟨84, []⟩, ⟨LQUIT, []⟩⟩],
      [],
      ⟨84, []⟩,
      [⟨1, LPUSH, []⟩, ⟨2, LINIT, []⟩, ⟨1, 84, []⟩, ⟨2, LQUIT, []⟩,
       ⟨1, LPUSH, []⟩, ⟨3, LINIT, []⟩, ⟨3, LQUIT, []⟩, ⟨2, LINIT, []⟩,
       ⟨2, LQUIT, []⟩, ⟨1, LBACK, []⟩, ⟨1, LQUIT, []⟩]⟩ :=
  rfl

end FsmModel
